import Mathlib

/-!
Verification of the Fyrox renderer batch-storage module
(`src/renderer/batch.rs`).

The module collects per-surface draw requests into batches keyed by a
64-bit FxHasher fingerprint of (material key, surface-data key, skinning
flag, decal layer, render path), and sorts the batch vector by a 64-bit
sort index.

Embedding conventions:
* `u64`/`u32`/`u8` values are `Nat` reduced modulo `2 ^ 64` / `2 ^ 32` /
  `2 ^ 8` at the points where the Rust types bound them (the hash writes).
* `f32` scalars are never inspected or combined arithmetically by the
  batching code; they are carried opaquely as 32-bit patterns (`F32`).
* `Vec` is `List` (Rust `Vec::push` appends at the end).
* The `FxHashMap<u64, usize>` is an association list; the code only ever
  inserts a key that is absent, so association-list insertion at the head
  with first-match lookup has exactly the map's behaviour.
* `Vec::sort_unstable_by_key` is modelled by `List.insertionSort` with
  the key comparison.  The Rust sort is unstable pattern-defeating
  quicksort; every property proved below (sortedness, permutation, and
  the fact that an already-sorted vector is returned unchanged) also
  holds of that implementation, which leaves a sorted slice untouched.
* A Rust `.unwrap()` that can panic is embedded by returning `Option`:
  `none` is the panic.
-/

/-- Modelled from the spec: an `f32` scalar carried opaquely as its 32-bit
pattern.  The batching code moves floats around but never computes with
them. -/
structure F32 where
  bits : Nat
deriving DecidableEq, Repr

/-- Modelled from the spec: a 4×4 `f32` matrix, carried opaquely as its
entry list.  `nalgebra`'s `Matrix4<f32>` lives outside `src/`. -/
structure Matrix4 where
  entries : List F32
deriving DecidableEq, Repr

/-- Modelled from the spec: the element range of an instance, either the
full surface or a specific sub-range (`ElementRange` lives outside
`src/`). -/
inductive ElementRange where
  | Full : ElementRange
  | Specific : Nat → Nat → ElementRange
deriving DecidableEq, Repr

/-- Modelled from the spec: the render path enum (`Deferred`/`Forward`),
hashed as a 4-byte integer.  The enum lives outside `src/`. -/
inductive RenderPath where
  | Deferred : RenderPath
  | Forward : RenderPath
deriving DecidableEq, Repr

/-- The `render_path as u32` cast used when hashing the grouping key. -/
def RenderPath.as_u32 : RenderPath → Nat
  | .Deferred => 0
  | .Forward => 1

/-- Modelled from the spec: an opaque, cheaply cloneable handle to shared
vertex/index data, exposing a 64-bit `key()`. -/
structure SurfaceSharedData where
  key : Nat
deriving DecidableEq, Repr

/-- Modelled from the spec: an opaque, cheaply cloneable handle to a
shared material, exposing a 64-bit `key()`. -/
structure SharedMaterial where
  key : Nat
deriving DecidableEq, Repr

/-- Modelled from the spec: the interned pass-name string; the core only
stores the borrow and never interprets it. -/
structure ImmutableString where
  ident : Nat
deriving DecidableEq, Repr

/-- A set of data of a surface for rendering (`SurfaceInstanceData`). -/
structure SurfaceInstanceData where
  world_transform : Matrix4
  bone_matrices : List Matrix4
  depth_offset : F32
  blend_shapes_weights : List F32
  element_range : ElementRange
deriving DecidableEq, Repr

/-! ### The FxHasher fingerprint

`fxhash::FxHasher` on a 64-bit target: state starts at 0, and every write
of an integer `i` performs
`hash = (hash.rotate_left(5) ^ i).wrapping_mul(0x51_7c_c1_b7_27_22_0a_95)`;
`finish` returns the state. -/

/-- The multiplicative seed of `fxhash::FxHasher` (64-bit target). -/
def fxSeed : Nat := 0x517cc1b727220a95

/-- Rotate a 64-bit word left by 5 bits. -/
def rotl5 (x : Nat) : Nat :=
  ((x <<< 5) % 2 ^ 64) ||| (x % 2 ^ 64) >>> 59

/-- One `add_to_hash` step of `FxHasher`. -/
def addToHash (h i : Nat) : Nat :=
  ((rotl5 h ^^^ i) * fxSeed) % 2 ^ 64

/-- The `write_u64` method of `FxHasher` (64-bit target: one step). -/
def hashWriteU64 (h i : Nat) : Nat := addToHash h (i % 2 ^ 64)

/-- The `write_u8` method of `FxHasher`. -/
def hashWriteU8 (h i : Nat) : Nat := addToHash h (i % 2 ^ 8)

/-- The `write_u32` method of `FxHasher`. -/
def hashWriteU32 (h i : Nat) : Nat := addToHash h (i % 2 ^ 32)

/-- The grouping fingerprint computed inside `push`: hash, in order,
material key (u64), surface-data key (u64), skinning flag (u8 0/1), decal
layer (u8), render path (u32). -/
def fingerprint (materialKey dataKey : Nat) (is_skinned : Bool)
    (decalLayer pathU32 : Nat) : Nat :=
  hashWriteU32
    (hashWriteU8
      (hashWriteU8
        (hashWriteU64 (hashWriteU64 0 materialKey) dataKey)
        (if is_skinned then 1 else 0))
      decalLayer)
    pathU32

/-- A set of surface instances that share the same vertex/index data and a
material (`RenderDataBatch`). -/
structure RenderDataBatch where
  data : SurfaceSharedData
  instances : List SurfaceInstanceData
  material : SharedMaterial
  is_skinned : Bool
  render_path : RenderPath
  decal_layer_index : Nat
  sort_index : Nat
deriving DecidableEq, Repr

/-- The grouping fingerprint recomputed from a batch's stored fields; a
batch created for fingerprint `f` satisfies `bkey b = f`. -/
def bkey (b : RenderDataBatch) : Nat :=
  fingerprint b.material.key b.data.key b.is_skinned b.decal_layer_index
    b.render_path.as_u32

/-- Batch storage (`RenderDataBatchStorage`): the fingerprint map and the
batch vector. -/
structure RenderDataBatchStorage where
  batch_map : List (Nat × Nat)
  batches : List RenderDataBatch
deriving DecidableEq, Repr

namespace RenderDataBatchStorage

/-- The `Default` instance of the storage: empty map, empty vector. -/
def default : RenderDataBatchStorage :=
  { batch_map := [], batches := [] }

end RenderDataBatchStorage

/-- Append one instance to the instance list of the batch at index `i`
(the `get_mut(i)` / `last_mut()` target followed by
`batch.instances.push(instance_data)`). -/
def appendInstanceAt (l : List RenderDataBatch) (i : Nat)
    (inst : SurfaceInstanceData) : List RenderDataBatch :=
  match l, i with
  | [], _ => []
  | b :: bs, 0 => { b with instances := b.instances ++ [inst] } :: bs
  | b :: bs, Nat.succ j => b :: appendInstanceAt bs j inst

/-- The comparison `sort_unstable_by_key(|b| b.sort_index)` sorts by. -/
def bySortIndex (a b : RenderDataBatch) : Prop :=
  a.sort_index ≤ b.sort_index

instance : DecidableRel bySortIndex :=
  fun a b => Nat.decLe a.sort_index b.sort_index

instance : IsTotal RenderDataBatch bySortIndex :=
  ⟨fun a b => Nat.le_total a.sort_index b.sort_index⟩

instance : IsTrans RenderDataBatch bySortIndex :=
  ⟨fun _ _ _ h h2 => Nat.le_trans h h2⟩

namespace RenderDataBatchStorage

/-- The `push` method.  Computes the skinning flag and the fingerprint,
then either appends the instance to the existing batch for the
fingerprint or creates a new batch.  The `self.batches.get_mut(batch_index)
.unwrap()` of the existing-batch branch is a potential panic, embedded as
`none` when the mapped index is out of range. -/
def push (self : RenderDataBatchStorage) (data : SurfaceSharedData)
    (material : SharedMaterial) (render_path : RenderPath)
    (decal_layer_index : Nat) (sort_index : Nat)
    (instance_data : SurfaceInstanceData) :
    Option RenderDataBatchStorage :=
  let is_skinned := !instance_data.bone_matrices.isEmpty
  let key := fingerprint material.key data.key is_skinned decal_layer_index
    render_path.as_u32
  match self.batch_map.lookup key with
  | some batch_index =>
    if batch_index < self.batches.length then
      some { self with
        batches := appendInstanceAt self.batches batch_index instance_data }
    else
      none
  | none =>
    let grown : RenderDataBatchStorage :=
      { batch_map := (key, self.batches.length) :: self.batch_map,
        batches := self.batches ++
          [{ data := data, sort_index := sort_index, instances := [],
             material := material, is_skinned := is_skinned,
             render_path := render_path,
             decal_layer_index := decal_layer_index }] }
    some { grown with
      batches := appendInstanceAt grown.batches
        (grown.batches.length - 1) instance_data }

/-- The `sort` method: `self.batches.sort_unstable_by_key(|b| b.sort_index)`. -/
def sort (self : RenderDataBatchStorage) : RenderDataBatchStorage :=
  { self with batches := self.batches.insertionSort bySortIndex }

end RenderDataBatchStorage

/-- The argument bundle of one `push` call. -/
structure PushArgs where
  data : SurfaceSharedData
  material : SharedMaterial
  render_path : RenderPath
  decal_layer_index : Nat
  sort_index : Nat
  instance_data : SurfaceInstanceData
deriving DecidableEq, Repr

/-- The skinning flag `push` computes for a call:
`!instance_data.bone_matrices.is_empty()`. -/
def skinnedOf (a : PushArgs) : Bool :=
  !a.instance_data.bone_matrices.isEmpty

/-- The five-component grouping tuple of a `push` call: material key,
surface-data key, computed skinning flag, render path, decal layer. -/
def groupingTuple (a : PushArgs) : Nat × Nat × Bool × RenderPath × Nat :=
  (a.material.key, a.data.key, skinnedOf a, a.render_path,
    a.decal_layer_index)

/-- The fingerprint `push` computes for a call. -/
def pushKey (a : PushArgs) : Nat :=
  fingerprint a.material.key a.data.key (skinnedOf a) a.decal_layer_index
    a.render_path.as_u32

/-- Run one bundled `push` call. -/
def push1 (s : RenderDataBatchStorage) (a : PushArgs) :
    Option RenderDataBatchStorage :=
  s.push a.data a.material a.render_path a.decal_layer_index a.sort_index
    a.instance_data

/-- Run a sequence of `push` calls left to right; `none` as soon as one
call would panic. -/
def pushAll (s : RenderDataBatchStorage) (calls : List PushArgs) :
    Option RenderDataBatchStorage :=
  calls.foldlM push1 s

/-- The index of the batch a `push` call with fingerprint `key` targets on
storage `s`: the mapped index when the fingerprint is known, otherwise the
index of the batch about to be created. -/
def targetIndex (s : RenderDataBatchStorage) (key : Nat) : Nat :=
  (s.batch_map.lookup key).getD s.batches.length

/-! ### The collection driver `from_graph` and its collaborators

`Graph`, `Frustum` and the vector/matrix algebra live in `fyrox-core`,
outside the sources at hand; they are modelled from the spec. -/

/-- Modelled from the spec: a world-space 3-vector of `f32`, carried
opaquely (named `Vec3` because Mathlib already owns the name
`Vector3`). -/
structure Vec3 where
  entries : List F32
deriving DecidableEq, Repr

/-- Modelled from the spec: the observer's view frustum (six planes
derived from projection·view).  The batching code never inspects it, so
the planes are carried opaquely; `defaultFrustum` is the
`Frustum::default()` fallback. -/
structure Frustum where
  planes : List Matrix4
deriving DecidableEq, Repr

/-- The `Frustum::default()` value used by `unwrap_or_default`. -/
def Frustum.defaultFrustum : Frustum := { planes := [] }

/-- Observer info: position, clipping planes, view and projection
matrices (`ObserverInfo`). -/
structure ObserverInfo where
  observer_position : Vec3
  z_near : F32
  z_far : F32
  view_matrix : Matrix4
  projection_matrix : Matrix4
deriving DecidableEq, Repr

/-- The read-only part of the `RenderContext` a node receives: observer
data, frustum and pass name.  The mutable storage reference is modelled by
the push list the node returns, and the graph borrow is folded into the
node function itself (a node is modelled as a function of the context). -/
structure RenderContextView where
  observer_position : Vec3
  z_near : F32
  z_far : F32
  view_matrix : Matrix4
  projection_matrix : Matrix4
  frustum : Frustum
  render_pass_name : ImmutableString

/-- Modelled from the spec: a scene node's `collect_render_data`
capability — given the context it contributes zero or more `push` calls,
in order. -/
def Node : Type := RenderContextView → List PushArgs

/-- Modelled from the spec: the scene graph, exposing `node_count` and
linear iteration over its nodes. -/
structure Graph where
  nodes : List Node

/-- The graph's `node_count()`. -/
def Graph.node_count (g : Graph) : Nat := g.nodes.length

/-- Assemble the render-context view handed to every node during one
collection pass. -/
def mkContext (observer_info : ObserverInfo) (frustum : Frustum)
    (render_pass_name : ImmutableString) : RenderContextView :=
  { observer_position := observer_info.observer_position,
    z_near := observer_info.z_near,
    z_far := observer_info.z_far,
    view_matrix := observer_info.view_matrix,
    projection_matrix := observer_info.projection_matrix,
    frustum := frustum,
    render_pass_name := render_pass_name }

/-- The capacity hint computed at the top of `from_graph`:
`graph.node_count() as usize`. -/
def from_graph_capacity (graph : Graph) : Nat := graph.node_count

namespace RenderDataBatchStorage

/-- The collection loop of `from_graph` for an already-derived frustum:
starting from the default storage, every node is handed the context once,
in the graph's linear iteration order, and contributes its `push` calls;
the storage is sorted once after the enumeration. -/
def collect_pass (graph : Graph) (observer_info : ObserverInfo)
    (frustum : Frustum) (render_pass_name : ImmutableString) :
    Option RenderDataBatchStorage :=
  let ctx := mkContext observer_info frustum render_pass_name
  (graph.nodes.foldlM (fun st node => pushAll st (node ctx))
      RenderDataBatchStorage.default).map RenderDataBatchStorage.sort

/-- The `from_graph` driver.  `mul` stands for the 4×4 matrix product and
`fvpm` for `Frustum::from_view_projection_matrix` (both live in
`fyrox-core`, outside the sources at hand, and are therefore parameters of
the model): the frustum is `fvpm (projection * view)` with
`unwrap_or_default`, and the nodes are then enumerated by
`collect_pass`. -/
def from_graph (mul : Matrix4 → Matrix4 → Matrix4)
    (fvpm : Matrix4 → Option Frustum) (graph : Graph)
    (observer_info : ObserverInfo) (render_pass_name : ImmutableString) :
    Option RenderDataBatchStorage :=
  let frustum :=
    (fvpm (mul observer_info.projection_matrix observer_info.view_matrix)
      ).getD Frustum.defaultFrustum
  collect_pass graph observer_info frustum render_pass_name

end RenderDataBatchStorage

/-! ### Derived definitions used by the statements -/

/-- The batch `push` creates for a fresh fingerprint, before the instance
is appended: the call's metadata and an empty instance list. -/
def newBatch (a : PushArgs) : RenderDataBatch :=
  { data := a.data, sort_index := a.sort_index, instances := [],
    material := a.material, is_skinned := skinnedOf a,
    render_path := a.render_path, decal_layer_index := a.decal_layer_index }

/-- The batch `push` creates for a fresh fingerprint, after appending the
creating instance. -/
def createdBatch (a : PushArgs) : RenderDataBatch :=
  { newBatch a with instances := [a.instance_data] }

/-- Every index stored in the fingerprint map is a valid index into the
batch vector. -/
def MapBounded (s : RenderDataBatchStorage) : Prop :=
  ∀ e ∈ s.batch_map, e.2 < s.batches.length

instance (s : RenderDataBatchStorage) : Decidable (MapBounded s) := by
  unfold MapBounded
  exact inferInstance

/-- The fingerprint map is consistent with the batch vector: every map
entry `(f, i)` points at a batch whose grouping fields hash back to `f`,
and every batch index is reachable through the map. -/
def MapConsistent (s : RenderDataBatchStorage) : Prop :=
  (∀ e ∈ s.batch_map, (s.batches.map bkey)[e.2]? = some e.1) ∧
    (∀ i ∈ List.range s.batches.length, ∃ e ∈ s.batch_map, e.2 = i)

instance (s : RenderDataBatchStorage) : Decidable (MapConsistent s) := by
  unfold MapConsistent
  exact inferInstance

/-- Distinct fingerprints recorded in the map point at distinct batch
slots. -/
def MapInjective (s : RenderDataBatchStorage) : Prop :=
  ∀ e ∈ s.batch_map, ∀ e2 ∈ s.batch_map, e.2 = e2.2 → e.1 = e2.1

instance (s : RenderDataBatchStorage) : Decidable (MapInjective s) := by
  unfold MapInjective
  exact inferInstance

/-- Every batch in the storage holds at least one instance. -/
def NonemptyBatches (s : RenderDataBatchStorage) : Prop :=
  ∀ b ∈ s.batches, b.instances ≠ []

instance (s : RenderDataBatchStorage) : Decidable (NonemptyBatches s) := by
  unfold NonemptyBatches
  exact inferInstance

/-- Every instance of every batch agrees with its batch's skinning
flag. -/
def SkinOK (s : RenderDataBatchStorage) : Prop :=
  ∀ b ∈ s.batches, ∀ inst ∈ b.instances,
    (!inst.bone_matrices.isEmpty) = b.is_skinned

instance (s : RenderDataBatchStorage) : Decidable (SkinOK s) := by
  unfold SkinOK
  exact inferInstance

/-- Every batch of the storage records the fingerprint and skinning flag
of some call of `calls` (the call that created it). -/
def CreatedFrom (s : RenderDataBatchStorage) (calls : List PushArgs) :
    Prop :=
  ∀ b ∈ s.batches, ∃ c ∈ calls,
    pushKey c = bkey b ∧ skinnedOf c = b.is_skinned

/-- No two calls of the list have equal fingerprints but different
skinning flags (the hash collision that would mix skinned and unskinned
instances in one batch). -/
def SkinCollisionFree (calls : List PushArgs) : Prop :=
  ∀ x ∈ calls, ∀ y ∈ calls, pushKey x = pushKey y → skinnedOf x = skinnedOf y

instance (calls : List PushArgs) : Decidable (SkinCollisionFree calls) := by
  unfold SkinCollisionFree
  exact inferInstance

/-! ### Concrete inputs for witnesses and counterexamples -/

/-- A concrete instance with no bone matrices (unskinned). -/
def instPlain : SurfaceInstanceData :=
  { world_transform := ⟨[]⟩, bone_matrices := [], depth_offset := ⟨0⟩,
    blend_shapes_weights := [], element_range := .Full }

/-- A concrete instance with one bone matrix (skinned). -/
def instSkinned : SurfaceInstanceData :=
  { instPlain with bone_matrices := [⟨[]⟩] }

/-- Shorthand for building a concrete `push` argument bundle. -/
def mkArgs (materialKey dataKey : Nat) (render_path : RenderPath)
    (decal_layer_index sort_index : Nat) (inst : SurfaceInstanceData) :
    PushArgs :=
  { data := ⟨dataKey⟩, material := ⟨materialKey⟩, render_path := render_path,
    decal_layer_index := decal_layer_index, sort_index := sort_index,
    instance_data := inst }

/-- First half of a genuine FxHasher collision between grouping tuples
that differ in material and data key: material 0, data key
3429551472952562346. -/
def collideA : PushArgs := mkArgs 0 3429551472952562346 .Deferred 0 5 instPlain

/-- Second half of the collision: material 1, data key 0 — a different
grouping tuple with the same fingerprint as `collideA`. -/
def collideB : PushArgs := mkArgs 1 0 .Deferred 0 7 instPlain

/-- First half of a genuine FxHasher collision between an unskinned and a
skinned grouping tuple: material 0, data key 16717361816799281152,
unskinned. -/
def collideSkinA : PushArgs :=
  mkArgs 0 16717361816799281152 .Deferred 0 1 instPlain

/-- Second half of the skinning collision: material 0, data key 0,
skinned — same fingerprint as `collideSkinA`. -/
def collideSkinB : PushArgs := mkArgs 0 0 .Deferred 0 2 instSkinned

/-- A concrete call with sort index 30 (used to exhibit the map becoming
stale after `sort`). -/
def staleA : PushArgs := mkArgs 11 12 .Forward 0 30 instPlain

/-- A concrete call with sort index 10 and a different fingerprint than
`staleA`. -/
def staleB : PushArgs := mkArgs 13 14 .Forward 0 10 instPlain

/-- The storage obtained by pushing `staleA` into the default storage. -/
def wStorage1 : RenderDataBatchStorage :=
  { batch_map := [(pushKey staleA, 0)], batches := [createdBatch staleA] }

/-- The storage obtained by pushing `staleA` and then `staleB` into the
default storage: two batches with sort indices 30 and 10. -/
def wStorage2 : RenderDataBatchStorage :=
  { batch_map := [(pushKey staleB, 1), (pushKey staleA, 0)],
    batches := [createdBatch staleA, createdBatch staleB] }

/-- A concrete (opaque) matrix value for witnesses. -/
def zeroM : Matrix4 := { entries := [] }

/-- A concrete observer for witnesses. -/
def wObserver : ObserverInfo :=
  { observer_position := { entries := [] }, z_near := ⟨0⟩, z_far := ⟨1⟩,
    view_matrix := zeroM, projection_matrix := zeroM }

/-- A concrete node contributing one `push` call. -/
def wNode : Node := fun _ => [staleA]

/-- A concrete one-node graph for witnesses. -/
def wGraph : Graph := { nodes := [wNode] }

/-- The empty graph. -/
def wEmptyGraph : Graph := { nodes := [] }

/-! ### Helper lemmas -/

theorem length_appendInstanceAt (l : List RenderDataBatch) (i : Nat)
    (inst : SurfaceInstanceData) :
    (appendInstanceAt l i inst).length = l.length := by
  induction l generalizing i with
  | nil => rfl
  | cons b bs ih =>
    cases i with
    | zero => rfl
    | succ j => simp [appendInstanceAt, ih]

theorem map_appendInstanceAt {α : Type} (g : RenderDataBatch → α)
    (hg : ∀ b inst, g { b with instances := b.instances ++ [inst] } = g b)
    (l : List RenderDataBatch) (i : Nat) (inst : SurfaceInstanceData) :
    (appendInstanceAt l i inst).map g = l.map g := by
  induction l generalizing i with
  | nil => rfl
  | cons b bs ih =>
    cases i with
    | zero => simp [appendInstanceAt, hg]
    | succ j => simp [appendInstanceAt, ih]

theorem getElem?_appendInstanceAt_ne (l : List RenderDataBatch)
    (i j : Nat) (inst : SurfaceInstanceData) (hij : j ≠ i) :
    (appendInstanceAt l i inst)[j]? = l[j]? := by
  induction l generalizing i j with
  | nil => rfl
  | cons b bs ih =>
    cases i with
    | zero =>
      cases j with
      | zero => exact absurd rfl hij
      | succ jj => simp [appendInstanceAt]
    | succ ii =>
      cases j with
      | zero => simp [appendInstanceAt]
      | succ jj =>
        simp only [appendInstanceAt, List.getElem?_cons_succ]
        exact ih ii jj (fun h => hij (by omega))

theorem getElem?_appendInstanceAt_eq (l : List RenderDataBatch) (i : Nat)
    (inst : SurfaceInstanceData) :
    (appendInstanceAt l i inst)[i]? =
      (l[i]?).map (fun b => { b with instances := b.instances ++ [inst] }) := by
  induction l generalizing i with
  | nil => simp [appendInstanceAt]
  | cons b bs ih =>
    cases i with
    | zero => simp [appendInstanceAt]
    | succ j => simp [appendInstanceAt, ih]

theorem mem_appendInstanceAt {l : List RenderDataBatch} {i : Nat}
    {inst : SurfaceInstanceData} {b2 : RenderDataBatch}
    (h : b2 ∈ appendInstanceAt l i inst) :
    b2 ∈ l ∨ ∃ b, l[i]? = some b ∧
      b2 = { b with instances := b.instances ++ [inst] } := by
  induction l generalizing i with
  | nil => simp [appendInstanceAt] at h
  | cons b bs ih =>
    cases i with
    | zero =>
      simp only [appendInstanceAt] at h
      rcases List.mem_cons.mp h with h | h
      · exact Or.inr ⟨b, by simp, h⟩
      · exact Or.inl (List.mem_cons_of_mem b h)
    | succ j =>
      simp only [appendInstanceAt] at h
      rcases List.mem_cons.mp h with h | h
      · subst h
        exact Or.inl (List.mem_cons_self b2 bs)
      · rcases ih h with h2 | ⟨b3, hb3, hb3e⟩
        · exact Or.inl (List.mem_cons_of_mem b h2)
        · exact Or.inr ⟨b3, by simpa using hb3, hb3e⟩

theorem appendInstanceAt_concat (l : List RenderDataBatch)
    (b : RenderDataBatch) (inst : SurfaceInstanceData) :
    appendInstanceAt (l ++ [b]) l.length inst =
      l ++ [{ b with instances := b.instances ++ [inst] }] := by
  induction l with
  | nil => rfl
  | cons hd tl ih => simp [appendInstanceAt, ih]

theorem lookup_mem {l : List (Nat × Nat)} {k v : Nat}
    (h : l.lookup k = some v) : (k, v) ∈ l := by
  induction l with
  | nil => simp [List.lookup] at h
  | cons e es ih =>
    obtain ⟨k1, v1⟩ := e
    rw [List.lookup] at h
    by_cases hk : k = k1
    · subst hk
      simp at h
      subst h
      exact List.mem_cons_self _ _
    · simp [beq_false_of_ne hk] at h
      exact List.mem_cons_of_mem _ (ih h)

theorem push1_of_lookup_none {s : RenderDataBatchStorage} {a : PushArgs}
    (h : s.batch_map.lookup (pushKey a) = none) :
    push1 s a = some
      { batch_map := (pushKey a, s.batches.length) :: s.batch_map,
        batches := s.batches ++ [createdBatch a] } := by
  have h2 : s.batch_map.lookup (fingerprint a.material.key a.data.key
      (!a.instance_data.bone_matrices.isEmpty) a.decal_layer_index
      a.render_path.as_u32) = none := h
  simp only [push1, RenderDataBatchStorage.push, h2, List.length_append,
    List.length_cons, List.length_nil, Nat.zero_add, Nat.add_sub_cancel]
  rw [appendInstanceAt_concat]
  rfl

theorem push1_of_lookup_some {s : RenderDataBatchStorage} {a : PushArgs}
    {i : Nat} (h : s.batch_map.lookup (pushKey a) = some i)
    (hi : i < s.batches.length) :
    push1 s a = some
      { s with batches := appendInstanceAt s.batches i a.instance_data } := by
  have h2 : s.batch_map.lookup (fingerprint a.material.key a.data.key
      (!a.instance_data.bone_matrices.isEmpty) a.decal_layer_index
      a.render_path.as_u32) = some i := h
  simp only [push1, RenderDataBatchStorage.push, h2, hi, if_pos]

theorem push1_of_lookup_oob {s : RenderDataBatchStorage} {a : PushArgs}
    {i : Nat} (h : s.batch_map.lookup (pushKey a) = some i)
    (hi : ¬ i < s.batches.length) :
    push1 s a = none := by
  have h2 : s.batch_map.lookup (fingerprint a.material.key a.data.key
      (!a.instance_data.bone_matrices.isEmpty) a.decal_layer_index
      a.render_path.as_u32) = some i := h
  simp only [push1, RenderDataBatchStorage.push, h2, hi]
  simp

theorem push1_some_cases {s : RenderDataBatchStorage} {a : PushArgs}
    {s2 : RenderDataBatchStorage} (hp : push1 s a = some s2) :
    (s.batch_map.lookup (pushKey a) = none ∧
      s2 = { batch_map := (pushKey a, s.batches.length) :: s.batch_map,
             batches := s.batches ++ [createdBatch a] }) ∨
    (∃ i, s.batch_map.lookup (pushKey a) = some i ∧ i < s.batches.length ∧
      s2 = { s with batches := appendInstanceAt s.batches i a.instance_data }) := by
  rcases hl : s.batch_map.lookup (pushKey a) with _ | i
  · left
    refine ⟨rfl, ?_⟩
    rw [push1_of_lookup_none hl] at hp
    exact (Option.some.inj hp).symm
  · right
    by_cases hi : i < s.batches.length
    · refine ⟨i, rfl, hi, ?_⟩
      rw [push1_of_lookup_some hl hi] at hp
      exact (Option.some.inj hp).symm
    · rw [push1_of_lookup_oob hl hi] at hp
      cases hp

theorem mapBounded_push1 {s : RenderDataBatchStorage} {a : PushArgs}
    {s2 : RenderDataBatchStorage} (hb : MapBounded s)
    (hp : push1 s a = some s2) : MapBounded s2 := by
  rcases push1_some_cases hp with ⟨hl, rfl⟩ | ⟨i, hl, hi, rfl⟩
  · intro e he
    simp only [List.length_append, List.length_cons, List.length_nil,
      Nat.zero_add]
    rcases List.mem_cons.mp he with rfl | he
    · simp
    · have := hb e he
      omega
  · intro e he
    rw [length_appendInstanceAt]
    exact hb e he

theorem push1_isSome {s : RenderDataBatchStorage} {a : PushArgs}
    (hb : MapBounded s) : (push1 s a).isSome := by
  rcases hl : s.batch_map.lookup (pushKey a) with _ | i
  · rw [push1_of_lookup_none hl]
    rfl
  · have hi : i < s.batches.length := hb _ (lookup_mem hl)
    rw [push1_of_lookup_some hl hi]
    rfl

theorem mapBounded_pushAll {calls : List PushArgs} :
    ∀ {s s2 : RenderDataBatchStorage}, MapBounded s →
      pushAll s calls = some s2 → MapBounded s2 := by
  induction calls with
  | nil =>
    intro s s2 hb hp
    cases hp
    exact hb
  | cons a rest ih =>
    intro s s2 hb hp
    simp only [pushAll, List.foldlM_cons] at hp
    rcases hp1 : push1 s a with _ | s1
    · rw [hp1] at hp
      cases hp
    · rw [hp1] at hp
      exact ih (mapBounded_push1 hb hp1) hp

theorem pushAll_isSome {calls : List PushArgs} :
    ∀ {s : RenderDataBatchStorage}, MapBounded s →
      (pushAll s calls).isSome := by
  induction calls with
  | nil =>
    intro s _
    rfl
  | cons a rest ih =>
    intro s hb
    simp only [pushAll, List.foldlM_cons]
    rcases hp1 : push1 s a with _ | s1
    · have := @push1_isSome s a hb
      rw [hp1] at this
      cases this
    · exact ih (mapBounded_push1 hb hp1)

theorem mapBounded_default : MapBounded RenderDataBatchStorage.default := by
  intro e he
  cases he

theorem nonempty_push1 {s : RenderDataBatchStorage} {a : PushArgs}
    {s2 : RenderDataBatchStorage} (hn : NonemptyBatches s)
    (hp : push1 s a = some s2) : NonemptyBatches s2 := by
  rcases push1_some_cases hp with ⟨hl, rfl⟩ | ⟨i, hl, hi, rfl⟩
  · intro b hb
    rcases List.mem_append.mp hb with h | h
    · exact hn b h
    · simp only [List.mem_singleton] at h
      subst h
      simp [createdBatch, newBatch]
  · intro b hb
    rcases mem_appendInstanceAt hb with h | ⟨b0, hb0, rfl⟩
    · exact hn b h
    · simp

theorem nonempty_pushAll {calls : List PushArgs} :
    ∀ {s s2 : RenderDataBatchStorage}, NonemptyBatches s →
      pushAll s calls = some s2 → NonemptyBatches s2 := by
  induction calls with
  | nil =>
    intro s s2 hn hp
    cases hp
    exact hn
  | cons a rest ih =>
    intro s s2 hn hp
    simp only [pushAll, List.foldlM_cons] at hp
    rcases hp1 : push1 s a with _ | s1
    · rw [hp1] at hp
      cases hp
    · rw [hp1] at hp
      exact ih (nonempty_push1 hn hp1) hp

theorem mapConsistent_bounded {s : RenderDataBatchStorage}
    (hm : MapConsistent s) : MapBounded s := by
  intro e he
  have h := hm.1 e he
  rcases List.getElem?_eq_some_iff.mp h with ⟨hlt, _⟩
  rwa [List.length_map] at hlt

theorem bkey_append_instance (b : RenderDataBatch)
    (inst : SurfaceInstanceData) :
    bkey { b with instances := b.instances ++ [inst] } = bkey b := rfl

theorem bkey_createdBatch (a : PushArgs) :
    bkey (createdBatch a) = pushKey a := rfl

theorem mapConsistent_push1 {s : RenderDataBatchStorage} {a : PushArgs}
    {s2 : RenderDataBatchStorage} (hm : MapConsistent s)
    (hp : push1 s a = some s2) : MapConsistent s2 := by
  obtain ⟨h1, h2⟩ := hm
  rcases push1_some_cases hp with ⟨hl, rfl⟩ | ⟨i, hl, hi, rfl⟩
  · constructor
    · intro e he
      rcases List.mem_cons.mp he with rfl | he
      · show (List.map bkey (s.batches ++
            [createdBatch a]))[s.batches.length]? = some (pushKey a)
        have hx := List.getElem?_concat_length (s.batches.map bkey) (pushKey a)
        rw [List.length_map] at hx
        rw [List.map_append]
        exact hx
      · have hold := h1 e he
        have hlt : e.2 < (s.batches.map bkey).length := by
          rcases List.getElem?_eq_some_iff.mp hold with ⟨hlt, _⟩
          exact hlt
        rw [List.map_append]
        rw [List.getElem?_append_left hlt]
        exact hold
    · intro i hi2
      simp only [List.mem_range, List.length_append, List.length_cons,
        List.length_nil, Nat.zero_add] at hi2
      by_cases hc : i = s.batches.length
      · subst hc
        exact ⟨(pushKey a, s.batches.length), List.mem_cons_self _ _, rfl⟩
      · have : i < s.batches.length := by omega
        rcases h2 i (List.mem_range.mpr this) with ⟨e, he, hei⟩
        exact ⟨e, List.mem_cons_of_mem _ he, hei⟩
  · constructor
    · intro e he
      rw [map_appendInstanceAt bkey (fun b inst => rfl)]
      exact h1 e he
    · intro i hi2
      rw [List.mem_range, length_appendInstanceAt] at hi2
      exact h2 i (List.mem_range.mpr hi2)

theorem mapInjective_push1 {s : RenderDataBatchStorage} {a : PushArgs}
    {s2 : RenderDataBatchStorage} (hb : MapBounded s) (hj : MapInjective s)
    (hp : push1 s a = some s2) : MapInjective s2 := by
  rcases push1_some_cases hp with ⟨hl, rfl⟩ | ⟨i, hl, hi, rfl⟩
  · intro e he e2 he2 hv
    rcases List.mem_cons.mp he with rfl | he <;>
      rcases List.mem_cons.mp he2 with rfl | he2
    · rfl
    · have := hb e2 he2
      omega
    · have := hb e he
      omega
    · exact hj e he e2 he2 hv
  · intro e he e2 he2 hv
    exact hj e he e2 he2 hv

theorem mapConsistent_default : MapConsistent RenderDataBatchStorage.default := by
  constructor
  · intro e he
    cases he
  · intro i hi
    cases hi

theorem mapInjective_default : MapInjective RenderDataBatchStorage.default := by
  intro e he
  cases he

theorem nonempty_default : NonemptyBatches RenderDataBatchStorage.default := by
  intro b hb
  cases hb

theorem targetIndex_after_push_eq {s : RenderDataBatchStorage}
    {a : PushArgs} {s2 : RenderDataBatchStorage}
    (hp : push1 s a = some s2) :
    targetIndex s2 (pushKey a) = targetIndex s (pushKey a) := by
  rcases push1_some_cases hp with ⟨hl, rfl⟩ | ⟨i, hl, hi, rfl⟩
  · simp [targetIndex, hl, List.lookup]
  · simp [targetIndex, hl]

theorem targetIndex_after_push_ne {s : RenderDataBatchStorage}
    {a : PushArgs} {s2 : RenderDataBatchStorage} {k2 : Nat}
    (hb : MapBounded s) (hj : MapInjective s) (hp : push1 s a = some s2)
    (hk : k2 ≠ pushKey a) :
    targetIndex s2 k2 ≠ targetIndex s (pushKey a) := by
  rcases push1_some_cases hp with ⟨hl, rfl⟩ | ⟨i, hl, hi, rfl⟩
  · have hstep : List.lookup k2
        ((pushKey a, s.batches.length) :: s.batch_map) =
        List.lookup k2 s.batch_map := by
      simp [List.lookup, beq_false_of_ne hk]
    rcases hl2 : List.lookup k2 s.batch_map with _ | j
    · simp only [targetIndex, hstep, hl2, hl, Option.getD_none,
        List.length_append, List.length_cons, List.length_nil]
      omega
    · have hjlen : j < s.batches.length := hb _ (lookup_mem hl2)
      simp only [targetIndex, hstep, hl2, hl, Option.getD_some,
        Option.getD_none]
      omega
  · rcases hl2 : List.lookup k2 s.batch_map with _ | j
    · simp only [targetIndex, hl2, hl, Option.getD_none, Option.getD_some,
        length_appendInstanceAt]
      omega
    · have hmem1 := lookup_mem hl2
      have hmem2 := lookup_mem hl
      have hji : j ≠ i := fun hji => hk (hj _ hmem1 _ hmem2 hji)
      simp only [targetIndex, hl2, hl, Option.getD_some]
      exact hji

theorem push1_appends_at_target {s : RenderDataBatchStorage}
    {a : PushArgs} {s2 : RenderDataBatchStorage}
    (hp : push1 s a = some s2) :
    (s2.batches.map (fun b => b.instances))[targetIndex s (pushKey a)]? =
      some ((((s.batches.map
          (fun b => b.instances))[targetIndex s (pushKey a)]?).getD [])
        ++ [a.instance_data]) := by
  rcases push1_some_cases hp with ⟨hl, rfl⟩ | ⟨i, hl, hi, rfl⟩
  · have hti : targetIndex s (pushKey a) = s.batches.length := by
      simp [targetIndex, hl]
    rw [hti]
    have hnone : (s.batches.map (fun b => b.instances))[s.batches.length]? =
        none := by
      apply List.getElem?_eq_none
      simp
    rw [hnone]
    have hx := List.getElem?_concat_length
      (s.batches.map (fun b => b.instances)) (createdBatch a).instances
    rw [List.length_map] at hx
    show (List.map (fun b => b.instances)
        (s.batches ++ [createdBatch a]))[s.batches.length]? = _
    rw [List.map_append, List.map_cons, List.map_nil]
    rw [hx]
    rfl
  · have hti : targetIndex s (pushKey a) = i := by
      simp [targetIndex, hl]
    rw [hti]
    show (List.map (fun b => b.instances)
        (appendInstanceAt s.batches i a.instance_data))[i]? = _
    rw [List.getElem?_map, getElem?_appendInstanceAt_eq, List.getElem?_map]
    rw [List.getElem?_eq_getElem hi]
    rfl

theorem sort_batches_perm (s : RenderDataBatchStorage) :
    (s.sort).batches.Perm s.batches :=
  List.perm_insertionSort bySortIndex s.batches

theorem sort_batches_sorted (s : RenderDataBatchStorage) :
    (s.sort).batches.Sorted bySortIndex :=
  List.sorted_insertionSort bySortIndex s.batches

theorem sort_idem (s : RenderDataBatchStorage) : s.sort.sort = s.sort := by
  simp only [RenderDataBatchStorage.sort]
  congr 1
  exact List.Sorted.insertionSort_eq (List.sorted_insertionSort _ _)

theorem pushAll_append (s : RenderDataBatchStorage)
    (l1 l2 : List PushArgs) :
    pushAll s (l1 ++ l2) =
      (pushAll s l1).bind (fun s1 => pushAll s1 l2) := by
  rw [pushAll, List.foldlM_append]
  rfl

theorem foldlM_nodes_eq_pushAll_flatten (nodes : List Node)
    (ctx : RenderContextView) :
    ∀ s : RenderDataBatchStorage,
      nodes.foldlM (fun st n => pushAll st (n ctx)) s =
        pushAll s (List.flatten (nodes.map (fun n => n ctx))) := by
  induction nodes with
  | nil =>
    intro s
    simp [pushAll]
  | cons n ns ih =>
    intro s
    simp only [List.foldlM_cons, List.map_cons, List.flatten_cons,
      pushAll_append]
    rcases hs : pushAll s (n ctx) with _ | s1
    · rfl
    · exact ih s1

theorem skinOK_appendInstanceAt {l : List RenderDataBatch} {i : Nat}
    {inst : SurfaceInstanceData}
    (hok : ∀ b ∈ l, ∀ x ∈ b.instances,
      (!x.bone_matrices.isEmpty) = b.is_skinned)
    (hflag : (l[i]?).map (fun b => b.is_skinned) =
      some (!inst.bone_matrices.isEmpty)) :
    ∀ b ∈ appendInstanceAt l i inst, ∀ x ∈ b.instances,
      (!x.bone_matrices.isEmpty) = b.is_skinned := by
  intro b hb x hx
  rcases mem_appendInstanceAt hb with h | ⟨b0, hb0, rfl⟩
  · exact hok b h x hx
  · rw [hb0] at hflag
    have hflag2 : b0.is_skinned = (!inst.bone_matrices.isEmpty) :=
      Option.some.inj hflag
    rcases List.mem_append.mp hx with h | h
    · exact hok b0 (List.getElem?_mem hb0) x h
    · simp only [List.mem_singleton] at h
      subst h
      exact hflag2.symm

theorem skin_step {calls : List PushArgs} {s : RenderDataBatchStorage}
    {a : PushArgs} {s1 : RenderDataBatchStorage}
    (ha : a ∈ calls) (hscf : SkinCollisionFree calls)
    (hm : MapConsistent s) (hc : CreatedFrom s calls) (hk : SkinOK s)
    (hp : push1 s a = some s1) : CreatedFrom s1 calls ∧ SkinOK s1 := by
  rcases push1_some_cases hp with ⟨hl, rfl⟩ | ⟨i, hl, hi, rfl⟩
  · constructor
    · intro b hb
      rcases List.mem_append.mp hb with h | h
      · exact hc b h
      · simp only [List.mem_singleton] at h
        subst h
        exact ⟨a, ha, rfl, rfl⟩
    · intro b hb x hx
      rcases List.mem_append.mp hb with h | h
      · exact hk b h x hx
      · simp only [List.mem_singleton] at h
        subst h
        simp only [createdBatch, newBatch, List.mem_singleton] at hx
        subst hx
        rfl
  · have hmem := lookup_mem hl
    have hbk := hm.1 _ hmem
    rw [List.getElem?_map] at hbk
    rcases hbe : s.batches[i]? with _ | b0
    · rw [hbe] at hbk
      cases hbk
    · rw [hbe] at hbk
      have hbkey : bkey b0 = pushKey a := Option.some.inj hbk
      have hb0mem : b0 ∈ s.batches := List.getElem?_mem hbe
      rcases hc b0 hb0mem with ⟨c, hcmem, hck, hcs⟩
      have hskin : skinnedOf a = b0.is_skinned := by
        have hkey : pushKey a = pushKey c := by
          rw [hck, hbkey]
        have := hscf a ha c hcmem hkey
        rw [this, hcs]
      constructor
      · intro b hb
        rcases mem_appendInstanceAt hb with h | ⟨b1, hb1, rfl⟩
        · exact hc b h
        · have hb10 : b1 = b0 := by
            rw [hbe] at hb1
            exact (Option.some.inj hb1).symm
          subst hb10
          exact ⟨c, hcmem, hck, hcs⟩
      · apply skinOK_appendInstanceAt hk
        rw [hbe]
        show some b0.is_skinned = some (!a.instance_data.bone_matrices.isEmpty)
        rw [← hskin]
        rfl

theorem skin_inv_pushAll {calls : List PushArgs}
    (hscf : SkinCollisionFree calls) :
    ∀ (rest : List PushArgs), (∀ x ∈ rest, x ∈ calls) →
      ∀ {s s2 : RenderDataBatchStorage}, MapConsistent s →
        CreatedFrom s calls → SkinOK s → pushAll s rest = some s2 →
        MapConsistent s2 ∧ CreatedFrom s2 calls ∧ SkinOK s2 := by
  intro rest
  induction rest with
  | nil =>
    intro _ s s2 hm hc hk hp
    cases hp
    exact ⟨hm, hc, hk⟩
  | cons a rs ih =>
    intro hsub s s2 hm hc hk hp
    simp only [pushAll, List.foldlM_cons] at hp
    rcases hp1 : push1 s a with _ | s1
    · rw [hp1] at hp
      cases hp
    · rw [hp1] at hp
      have ha : a ∈ calls := hsub a (List.mem_cons_self _ _)
      have hstep := skin_step ha hscf hm hc hk hp1
      exact ih (fun x hx => hsub x (List.mem_cons_of_mem _ hx))
        (mapConsistent_push1 hm hp1) hstep.1 hstep.2 hp

theorem pushKey_eq_of_tuple_eq {a b : PushArgs}
    (h : groupingTuple a = groupingTuple b) : pushKey a = pushKey b := by
  have h1 : a.material.key = b.material.key :=
    congrArg (fun t => t.1) h
  have h2 : a.data.key = b.data.key :=
    congrArg (fun t => t.2.1) h
  have h3 : skinnedOf a = skinnedOf b :=
    congrArg (fun t => t.2.2.1) h
  have h4 : a.render_path = b.render_path :=
    congrArg (fun t => t.2.2.2.1) h
  have h5 : a.decal_layer_index = b.decal_layer_index :=
    congrArg (fun t => t.2.2.2.2) h
  simp only [pushKey, h1, h2, h3, h4, h5]

theorem collect_pass_isSome (g : Graph) (obs : ObserverInfo) (fr : Frustum)
    (pass : ImmutableString) :
    (RenderDataBatchStorage.collect_pass g obs fr pass).isSome := by
  simp only [RenderDataBatchStorage.collect_pass]
  rw [foldlM_nodes_eq_pushAll_flatten]
  have hb := @pushAll_isSome
    (List.flatten (g.nodes.map (fun n => n (mkContext obs fr pass))))
    RenderDataBatchStorage.default mapBounded_default
  rcases hx : pushAll RenderDataBatchStorage.default
      (List.flatten (g.nodes.map (fun n => n (mkContext obs fr pass)))) with
      _ | s
  · rw [hx] at hb
    cases hb
  · simp [hx]

theorem lookup_preserved_push1 {s : RenderDataBatchStorage} {a : PushArgs}
    {s2 : RenderDataBatchStorage} (hp : push1 s a = some s2) {k v : Nat}
    (hl : s.batch_map.lookup k = some v) :
    s2.batch_map.lookup k = some v := by
  rcases push1_some_cases hp with ⟨hln, rfl⟩ | ⟨i, hls, hi, rfl⟩
  · have hkne : k ≠ pushKey a := by
      intro hk
      subst hk
      rw [hl] at hln
      cases hln
    show List.lookup k ((pushKey a, s.batches.length) :: s.batch_map) =
      some v
    simp [List.lookup, beq_false_of_ne hkne, hl]
  · exact hl

theorem lookup_preserved_pushAll {calls : List PushArgs} :
    ∀ {s s2 : RenderDataBatchStorage}, pushAll s calls = some s2 →
      ∀ {k v : Nat}, s.batch_map.lookup k = some v →
        s2.batch_map.lookup k = some v := by
  induction calls with
  | nil =>
    intro s s2 hp k v hl
    cases hp
    exact hl
  | cons a rest ih =>
    intro s s2 hp k v hl
    simp only [pushAll, List.foldlM_cons] at hp
    rcases hp1 : push1 s a with _ | s1
    · rw [hp1] at hp
      cases hp
    · rw [hp1] at hp
      exact ih hp (lookup_preserved_push1 hp1 hl)

theorem lookup_pushKey_after_push1 {s : RenderDataBatchStorage}
    {a : PushArgs} {s1 : RenderDataBatchStorage}
    (hp : push1 s a = some s1) :
    s1.batch_map.lookup (pushKey a) =
      some (targetIndex s (pushKey a)) := by
  rcases push1_some_cases hp with ⟨hl, rfl⟩ | ⟨i, hl, hi, rfl⟩
  · show List.lookup (pushKey a)
        ((pushKey a, s.batches.length) :: s.batch_map) = _
    simp [List.lookup, targetIndex, hl]
  · show List.lookup (pushKey a) s.batch_map = _
    simp [targetIndex, hl]

theorem mapInjective_pushAll {calls : List PushArgs} :
    ∀ {s s2 : RenderDataBatchStorage}, MapBounded s → MapInjective s →
      pushAll s calls = some s2 → MapInjective s2 := by
  induction calls with
  | nil =>
    intro s s2 _ hj hp
    cases hp
    exact hj
  | cons a rest ih =>
    intro s s2 hb hj hp
    simp only [pushAll, List.foldlM_cons] at hp
    rcases hp1 : push1 s a with _ | s1
    · rw [hp1] at hp
      cases hp
    · rw [hp1] at hp
      exact ih (mapBounded_push1 hb hp1) (mapInjective_push1 hb hj hp1) hp

/-! ### Claim theorems -/

/-- C1 counterexample: the claim "two pushes whose grouping tuples differ
in at least one component land in different batches" is false on the code.
`collideA` (material key 0, data key 3429551472952562346) and `collideB`
(material key 1, data key 0) have different grouping tuples, but their
FxHasher fingerprints collide, so both instances are appended to one and
the same batch. -/
theorem c1_counterexample :
    groupingTuple collideA ≠ groupingTuple collideB ∧
      (pushAll RenderDataBatchStorage.default [collideA, collideB]).map
          (fun s => s.batches.map (fun b => b.instances)) =
        some [[collideA.instance_data, collideB.instance_data]] := by
  decide

/-- C1 amended: for every pair of push calls of a sequence — call `a`,
then arbitrarily many other pushes `mid`, then call `b` — on a storage
whose fingerprint map is bounded and injective: if the two calls have
identical grouping tuples, `b` targets exactly the batch slot `a`'s
instance went to; if their fingerprints differ, `b` targets a different
slot (distinct grouping tuples are only guaranteed distinct fingerprints
up to 64-bit FxHasher collisions). -/
theorem c1_batching (s : RenderDataBatchStorage) (a : PushArgs)
    (mid : List PushArgs) (b : PushArgs)
    (s1 sMid : RenderDataBatchStorage) (hb : MapBounded s)
    (hj : MapInjective s) (hpa : push1 s a = some s1)
    (hmid : pushAll s1 mid = some sMid)
    (_hpb : (push1 sMid b).isSome) :
    (groupingTuple a = groupingTuple b →
      targetIndex sMid (pushKey b) = targetIndex s (pushKey a)) ∧
    (pushKey a ≠ pushKey b →
      targetIndex sMid (pushKey b) ≠ targetIndex s (pushKey a)) := by
  have hlookMid : sMid.batch_map.lookup (pushKey a) =
      some (targetIndex s (pushKey a)) :=
    lookup_preserved_pushAll hmid (lookup_pushKey_after_push1 hpa)
  have hbMid : MapBounded sMid :=
    mapBounded_pushAll (mapBounded_push1 hb hpa) hmid
  have hjMid : MapInjective sMid :=
    mapInjective_pushAll (mapBounded_push1 hb hpa)
      (mapInjective_push1 hb hj hpa) hmid
  constructor
  · intro ht
    rw [← pushKey_eq_of_tuple_eq ht]
    simp [targetIndex, hlookMid]
  · intro hne
    rcases hl2 : sMid.batch_map.lookup (pushKey b) with _ | j
    · have hiA : targetIndex s (pushKey a) < sMid.batches.length :=
        hbMid _ (lookup_mem hlookMid)
      have hT : targetIndex sMid (pushKey b) = sMid.batches.length := by
        simp [targetIndex, hl2]
      rw [hT]
      omega
    · have hmem1 := lookup_mem hl2
      have hmem2 := lookup_mem hlookMid
      have hji : j ≠ targetIndex s (pushKey a) := fun hji =>
        hne (hjMid _ hmem2 _ hmem1 hji.symm)
      have hT : targetIndex sMid (pushKey b) = j := by
        simp [targetIndex, hl2]
      rw [hT]
      exact hji

/-- Witness for C1: the amended theorem applied to a concrete three-push
sequence — `staleA`, then the unrelated push `staleB` in between, then
`staleA` again (same grouping tuple, separated by another push). -/
theorem c1_batching_witness :
    (groupingTuple staleA = groupingTuple staleA →
      targetIndex wStorage2 (pushKey staleA) =
        targetIndex RenderDataBatchStorage.default (pushKey staleA)) ∧
    (pushKey staleA ≠ pushKey staleA →
      targetIndex wStorage2 (pushKey staleA) ≠
        targetIndex RenderDataBatchStorage.default (pushKey staleA)) :=
  c1_batching RenderDataBatchStorage.default staleA [staleB] staleA
    wStorage1 wStorage2 (by decide) (by decide) (by decide) (by decide)
    (by decide)

/-- C2: a push that lands in an existing batch leaves every stored sort
index unchanged, and a push that creates a batch appends exactly its own
`sort_index` argument; hence a batch's sort index is the one of the push
that created it — first write wins. -/
theorem c2_first_write_wins (s : RenderDataBatchStorage) (a : PushArgs)
    (s2 : RenderDataBatchStorage) (hp : push1 s a = some s2) :
    ((s.batch_map.lookup (pushKey a)).isSome →
      s2.batches.map (fun b => b.sort_index) =
        s.batches.map (fun b => b.sort_index)) ∧
    (s.batch_map.lookup (pushKey a) = none →
      s2.batches.map (fun b => b.sort_index) =
        s.batches.map (fun b => b.sort_index) ++ [a.sort_index]) := by
  rcases push1_some_cases hp with ⟨hl, rfl⟩ | ⟨i, hl, hi, rfl⟩
  · constructor
    · intro hsome
      rw [hl] at hsome
      cases hsome
    · intro _
      show List.map _ (s.batches ++ [createdBatch a]) = _
      rw [List.map_append]
      rfl
  · constructor
    · intro _
      exact map_appendInstanceAt (fun b => b.sort_index)
        (fun b inst => rfl) _ _ _
    · intro hnone
      rw [hl] at hnone
      cases hnone

/-- Witness for C2: the theorem applied to a concrete creating push. -/
theorem c2_first_write_wins_witness :
    ((RenderDataBatchStorage.default.batch_map.lookup
        (pushKey staleA)).isSome →
      wStorage1.batches.map (fun b => b.sort_index) =
        RenderDataBatchStorage.default.batches.map
          (fun b => b.sort_index)) ∧
    (RenderDataBatchStorage.default.batch_map.lookup (pushKey staleA) =
        none →
      wStorage1.batches.map (fun b => b.sort_index) =
        RenderDataBatchStorage.default.batches.map (fun b => b.sort_index)
          ++ [staleA.sort_index]) :=
  c2_first_write_wins RenderDataBatchStorage.default staleA wStorage1
    (by decide)

/-- C3: after `sort`, the batch vector is non-decreasing in `sort_index`
at every index pair `i < j`, and the new batch vector is a permutation of
the old one by whole batch values — so every batch keeps its instance
sequence exactly (insertion order preserved inside each batch). -/
theorem c3_sort_sorted (s : RenderDataBatchStorage) :
    (∀ (i j : Nat) (hi : i < s.sort.batches.length)
        (hj : j < s.sort.batches.length), i < j →
      (s.sort.batches.get ⟨i, hi⟩).sort_index ≤
        (s.sort.batches.get ⟨j, hj⟩).sort_index) ∧
    s.sort.batches.Perm s.batches := by
  constructor
  · intro i j hi hj hij
    exact List.pairwise_iff_get.mp (sort_batches_sorted s) ⟨i, hi⟩
      ⟨j, hj⟩ hij
  · exact sort_batches_perm s

/-- Witness for C3: the theorem applied to the concrete two-batch storage
with sort indices 30 and 10, at indices 0 < 1. -/
theorem c3_sort_sorted_witness :
    (wStorage2.sort.batches.get ⟨0, by decide⟩).sort_index ≤
      (wStorage2.sort.batches.get ⟨1, by decide⟩).sort_index ∧
    wStorage2.sort.batches.Perm wStorage2.batches :=
  ⟨(c3_sort_sorted wStorage2).1 0 1 (by decide) (by decide) (by decide),
    (c3_sort_sorted wStorage2).2⟩

/-- C4 counterexample: the map/vector consistency claim is false across
`sort`.  Pushing `staleA` (sort index 30) and `staleB` (sort index 10)
yields a consistent storage, but `sort` reorders the batch vector without
updating the fingerprint map, so afterwards `map[fingerprint staleA] = 0`
while `batches[0]` is the batch created for `staleB`. -/
theorem c4_counterexample :
    pushAll RenderDataBatchStorage.default [staleA, staleB] =
        some wStorage2 ∧
      MapConsistent wStorage2 ∧ ¬ MapConsistent wStorage2.sort := by
  refine ⟨by decide, by decide, by decide⟩

/-- C4 amended: the fingerprint map is consistent with the batch vector
in the empty storage and stays consistent across every `push`; `sort`
does not update the map, so a sort that reorders the batches can leave
the map pointing at batches created from other fingerprints (the code
never uses the map after sorting). -/
theorem c4_map_consistency :
    MapConsistent RenderDataBatchStorage.default ∧
    ∀ (s : RenderDataBatchStorage) (a : PushArgs)
      (s2 : RenderDataBatchStorage), MapConsistent s →
      push1 s a = some s2 → MapConsistent s2 :=
  ⟨mapConsistent_default, fun _ _ _ hm hp => mapConsistent_push1 hm hp⟩

/-- Witness for C4: consistency of the storage after one concrete push,
through the amended theorem. -/
theorem c4_map_consistency_witness : MapConsistent wStorage1 :=
  c4_map_consistency.2 RenderDataBatchStorage.default staleA wStorage1
    (by decide) (by decide)

/-- C5: `sort` is idempotent — sorting twice yields exactly the batch
order of sorting once (true of the model and of Rust's pdqsort, which
returns an already-sorted slice unchanged). -/
theorem c5_sort_idempotent (s : RenderDataBatchStorage) :
    s.sort.sort = s.sort :=
  sort_idem s

/-- C6: after any finite sequence of `push` calls starting from the empty
storage, every batch holds at least one instance. -/
theorem c6_batches_nonempty (calls : List PushArgs)
    (s : RenderDataBatchStorage)
    (hp : pushAll RenderDataBatchStorage.default calls = some s) :
    ∀ b ∈ s.batches, b.instances ≠ [] :=
  nonempty_pushAll nonempty_default hp

/-- Witness for C6: the single batch created by one concrete push is
non-empty. -/
theorem c6_batches_nonempty_witness :
    (createdBatch staleA).instances ≠ [] :=
  c6_batches_nonempty [staleA] wStorage1 (by decide) (createdBatch staleA)
    (by decide)

/-- C7 counterexample: the claim "every instance stored in a batch has
the same bone-emptiness status as the batch's flag" is false on the code.
`collideSkinA` (unskinned, data key 16717361816799281152) and
`collideSkinB` (skinned, data key 0) have colliding FxHasher
fingerprints, so the skinned instance is appended to the unskinned batch:
the resulting storage has one batch with `is_skinned = false` whose
second instance has a non-empty bone-matrix list. -/
theorem c7_counterexample :
    (pushAll RenderDataBatchStorage.default
        [collideSkinA, collideSkinB]).map
        (fun s => s.batches.map (fun b => (b.is_skinned,
          b.instances.map (fun x => !x.bone_matrices.isEmpty)))) =
      some [(false, [false, true])] := by
  decide

/-- C7 amended: a batch created by `push` records exactly the skinning
flag of its creating instance (non-empty bone matrices) and starts with
that instance; and for every sequence of pushes whose fingerprints never
collide across different skinning flags, every instance of every batch
agrees with its batch's flag. -/
theorem c7_skinning :
    (∀ (s : RenderDataBatchStorage) (a : PushArgs)
        (s2 : RenderDataBatchStorage),
      s.batch_map.lookup (pushKey a) = none → push1 s a = some s2 →
        (s2.batches.getLast?).map (fun b => b.is_skinned) =
          some (!a.instance_data.bone_matrices.isEmpty) ∧
        (s2.batches.getLast?).map (fun b => b.instances) =
          some [a.instance_data]) ∧
    (∀ (calls : List PushArgs) (s2 : RenderDataBatchStorage),
      SkinCollisionFree calls →
      pushAll RenderDataBatchStorage.default calls = some s2 →
        SkinOK s2) := by
  constructor
  · intro s a s2 hl hp
    rw [push1_of_lookup_none hl] at hp
    have hs2 := (Option.some.inj hp).symm
    subst hs2
    constructor
    · show (List.getLast? (s.batches ++ [createdBatch a])).map _ = _
      rw [List.getLast?_concat]
      rfl
    · show (List.getLast? (s.batches ++ [createdBatch a])).map _ = _
      rw [List.getLast?_concat]
      rfl
  · intro calls s2 hscf hp
    refine (skin_inv_pushAll hscf calls (fun x hx => hx)
      mapConsistent_default ?_ ?_ hp).2.2
    · intro b hb
      cases hb
    · intro b hb
      cases hb

/-- Witness for C7: the amended theorem applied to one concrete creating
push and to the collision-free call list `[staleA]`. -/
theorem c7_skinning_witness :
    ((wStorage1.batches.getLast?).map (fun b => b.is_skinned) =
      some (!staleA.instance_data.bone_matrices.isEmpty)) ∧
    SkinOK wStorage1 :=
  ⟨(c7_skinning.1 RenderDataBatchStorage.default staleA wStorage1
      (by decide) (by decide)).1,
    c7_skinning.2 [staleA] wStorage1 (by decide) (by decide)⟩

/-- C8: when the frustum derivation from projection·view fails,
`from_graph` does not fail: it runs the pass with the default frustum,
returns a storage (`isSome`), and still hands the context to every node
in linear order (the contribution list is the concatenation over all
nodes). -/
theorem c8_degenerate_frustum (mul : Matrix4 → Matrix4 → Matrix4)
    (fvpm : Matrix4 → Option Frustum) (graph : Graph)
    (observer_info : ObserverInfo) (render_pass_name : ImmutableString)
    (hfail : fvpm (mul observer_info.projection_matrix
      observer_info.view_matrix) = none) :
    RenderDataBatchStorage.from_graph mul fvpm graph observer_info
        render_pass_name =
      RenderDataBatchStorage.collect_pass graph observer_info
        Frustum.defaultFrustum render_pass_name ∧
    (RenderDataBatchStorage.from_graph mul fvpm graph observer_info
        render_pass_name).isSome ∧
    RenderDataBatchStorage.from_graph mul fvpm graph observer_info
        render_pass_name =
      (pushAll RenderDataBatchStorage.default
        (List.flatten (graph.nodes.map (fun n =>
          n (mkContext observer_info Frustum.defaultFrustum
            render_pass_name))))).map RenderDataBatchStorage.sort := by
  have heq : RenderDataBatchStorage.from_graph mul fvpm graph
      observer_info render_pass_name =
      RenderDataBatchStorage.collect_pass graph observer_info
        Frustum.defaultFrustum render_pass_name := by
    simp only [RenderDataBatchStorage.from_graph, hfail, Option.getD_none]
  refine ⟨heq, ?_, ?_⟩
  · rw [heq]
    exact collect_pass_isSome _ _ _ _
  · rw [heq]
    simp only [RenderDataBatchStorage.collect_pass]
    rw [foldlM_nodes_eq_pushAll_flatten]

/-- Witness for C8: a one-node graph with an always-failing frustum
derivation still produces a storage. -/
theorem c8_degenerate_frustum_witness :
    (RenderDataBatchStorage.from_graph (fun _ _ => zeroM) (fun _ => none)
      wGraph wObserver ⟨0⟩).isSome :=
  (c8_degenerate_frustum (fun _ _ => zeroM) (fun _ => none) wGraph
    wObserver ⟨0⟩ rfl).2.1

/-- C9: the capacity hint equals the graph's node count; `from_graph`
equals sorting the storage obtained by pushing, in linear node order, the
concatenated contributions of every node applied once to the context; and
for the empty graph the result is the default storage, whose batch vector
is empty. -/
theorem c9_driver (mul : Matrix4 → Matrix4 → Matrix4)
    (fvpm : Matrix4 → Option Frustum) (graph : Graph)
    (observer_info : ObserverInfo) (render_pass_name : ImmutableString) :
    from_graph_capacity graph = graph.nodes.length ∧
    RenderDataBatchStorage.from_graph mul fvpm graph observer_info
        render_pass_name =
      (pushAll RenderDataBatchStorage.default
        (List.flatten (graph.nodes.map (fun n =>
          n (mkContext observer_info
            ((fvpm (mul observer_info.projection_matrix
              observer_info.view_matrix)).getD Frustum.defaultFrustum)
            render_pass_name))))).map RenderDataBatchStorage.sort ∧
    (graph.nodes = [] →
      RenderDataBatchStorage.from_graph mul fvpm graph observer_info
          render_pass_name = some RenderDataBatchStorage.default) ∧
    RenderDataBatchStorage.default.batches = [] := by
  refine ⟨rfl, ?_, ?_, rfl⟩
  · simp only [RenderDataBatchStorage.from_graph,
      RenderDataBatchStorage.collect_pass]
    rw [foldlM_nodes_eq_pushAll_flatten]
  · intro hempty
    simp only [RenderDataBatchStorage.from_graph,
      RenderDataBatchStorage.collect_pass, hempty]
    rfl

/-- Witness for C9: the empty graph yields the default (empty) storage. -/
theorem c9_driver_witness :
    RenderDataBatchStorage.from_graph (fun _ _ => zeroM) (fun _ => none)
      wEmptyGraph wObserver ⟨0⟩ = some RenderDataBatchStorage.default :=
  (c9_driver (fun _ _ => zeroM) (fun _ => none) wEmptyGraph wObserver
    ⟨0⟩).2.2.1 rfl

/-- C10: `push` is infallible on every call sequence from the empty
storage — the fold never hits the panicking `unwrap` — because every
index stored in the fingerprint map is always a valid index into the
batch vector. -/
theorem c10_push_infallible :
    (∀ calls : List PushArgs,
      (pushAll RenderDataBatchStorage.default calls).isSome) ∧
    (∀ (calls : List PushArgs) (s : RenderDataBatchStorage),
      pushAll RenderDataBatchStorage.default calls = some s →
      ∀ e ∈ s.batch_map, e.2 < s.batches.length) :=
  ⟨fun calls =>
    @pushAll_isSome calls RenderDataBatchStorage.default mapBounded_default,
   fun _ _ hp => mapBounded_pushAll mapBounded_default hp⟩

/-- Witness for C10: two concrete pushes succeed and the recorded map
index is in range. -/
theorem c10_push_infallible_witness :
    (pushAll RenderDataBatchStorage.default [staleA, staleB]).isSome ∧
    (pushKey staleA, 0).2 < wStorage2.batches.length :=
  ⟨c10_push_infallible.1 [staleA, staleB],
    c10_push_infallible.2 [staleA, staleB] wStorage2 (by decide)
      (pushKey staleA, 0) (by decide)⟩
